import Mathlib

/-!
Verification of the sharpeye NBA prop-betting backend.

Shallow embedding notes:

* Python floats are modelled as exact rationals (`ℚ`); machine dates are
  modelled as `Int` day numbers; database tables and pandas frames are
  modelled as Lean lists of row structures.
* Randomness is factored out: the deterministic data flow around each RNG
  call (parameter flooring, clipping, counting) is modelled as a function of
  the raw sample list.
* Each section names the source file it embeds.
-/

/-! ## backend/app/core/monte_carlo.py : MonteCarloSimulator -/

namespace CoreMC

/-- Model of `prob_over = (simulations > prop_line).mean()`
(monte_carlo.py line 73): the fraction of samples strictly greater than the
line. -/
def probOver (samples : List ℚ) (line : ℚ) : ℚ :=
  (samples.countP (fun s => decide (line < s)) : ℚ) / (samples.length : ℚ)

/-- Model of `prob_under = (simulations <= prop_line).mean()`
(monte_carlo.py line 74): the fraction of samples less than or equal to the
line. -/
def probUnder (samples : List ℚ) (line : ℚ) : ℚ :=
  (samples.countP (fun s => decide (s ≤ line)) : ℚ) / (samples.length : ℚ)

/-- Model of the American-to-decimal odds conversion inside
`MonteCarloSimulator._calculate_edge` (monte_carlo.py lines 176-179). -/
def americanToDecimal (odds : ℤ) : ℚ :=
  if 0 < odds then ((odds : ℚ) / 100) + 1 else (100 / |(odds : ℚ)|) + 1

/-- Model of `MonteCarloSimulator._calculate_edge` (monte_carlo.py lines
164-190): profit on a nominal 100 stake, expected value, reported as a
percentage of stake. -/
def calculateEdge (probability : ℚ) (americanOdds : ℤ) : ℚ :=
  let decimalOdds := americanToDecimal americanOdds
  let profit := (decimalOdds - 1) * 100
  let ev := probability * profit - (1 - probability) * 100
  ev / 100 * 100

/-- Model of `confidence_score = max(prob_over, prob_under) * 100`
(monte_carlo.py lines 84-85). -/
def confidenceScore (samples : List ℚ) (line : ℚ) : ℚ :=
  max (probOver samples line) (probUnder samples line) * 100

end CoreMC

/-! ## backend/app/services/prediction_service.py : _get_recommendation -/

namespace PredictionService

/-- Model of `PredictionService._get_recommendation` (prediction_service.py
lines 210-228): PASS only when both the edge and the confidence are low,
otherwise the direction with the larger probability. -/
def getRecommendation (edge confidence probOver probUnder : ℚ) : String :=
  if edge < 3 ∧ confidence < 55 then "PASS"
  else if probUnder < probOver then "OVER"
  else "UNDER"

end PredictionService

namespace CoreMC

/-- The two counting predicates of `probOver` and `probUnder` partition the
sample list. -/
lemma countP_over_add_countP_under (samples : List ℚ) (line : ℚ) :
    samples.countP (fun s => decide (line < s)) +
      samples.countP (fun s => decide (s ≤ line)) = samples.length := by
  have hfun : (fun s : ℚ => decide (¬ (decide (line < s)) = true)) =
      (fun s : ℚ => decide (s ≤ line)) := by
    funext x
    by_cases h : line < x
    · simp [h, not_le.mpr h]
    · simp [h, not_lt.mp h]
  have h := List.length_eq_countP_add_countP (fun s => decide (line < s)) samples
  rw [hfun] at h
  exact h.symm

lemma probOver_add_probUnder (samples : List ℚ) (line : ℚ)
    (h : samples ≠ []) : probOver samples line + probUnder samples line = 1 := by
  have hn : (samples.length : ℚ) ≠ 0 := by
    exact_mod_cast Nat.pos_iff_ne_zero.mp (List.length_pos.mpr h)
  unfold probOver probUnder
  rw [div_add_div_same, div_eq_one_iff_eq hn]
  exact_mod_cast countP_over_add_countP_under samples line

lemma probOver_nonneg (samples : List ℚ) (line : ℚ) :
    0 ≤ probOver samples line := by
  unfold probOver; positivity

lemma probUnder_nonneg (samples : List ℚ) (line : ℚ) :
    0 ≤ probUnder samples line := by
  unfold probUnder; positivity

lemma probOver_le_one (samples : List ℚ) (line : ℚ) :
    probOver samples line ≤ 1 := by
  unfold probOver
  rcases List.eq_nil_or_concat samples with h | _
  · subst h; simp
  · apply div_le_one_of_le₀
    · exact_mod_cast List.countP_le_length _
    · positivity

lemma probUnder_le_one (samples : List ℚ) (line : ℚ) :
    probUnder samples line ≤ 1 := by
  unfold probUnder
  apply div_le_one_of_le₀
  · exact_mod_cast List.countP_le_length _
  · positivity

end CoreMC

/-- Claim C3: in the points-prediction Monte Carlo engine, the fraction of
samples strictly over the line plus the fraction of samples at or under the
line is exactly 1 for every nonempty finite sample list and every line. -/
theorem C3_prob_over_add_prob_under (samples : List ℚ) (line : ℚ)
    (h : samples ≠ []) :
    CoreMC.probOver samples line + CoreMC.probUnder samples line = 1 :=
  CoreMC.probOver_add_probUnder samples line h

/-- Witness for C3 at the concrete sample set [20, 27, 31] and line 24.5. -/
theorem C3_prob_over_add_prob_under_witness :
    CoreMC.probOver [20, 27, 31] (49/2) + CoreMC.probUnder [20, 27, 31] (49/2) = 1 :=
  C3_prob_over_add_prob_under [20, 27, 31] (49/2) (by decide)

/-- Claim C4: the edge calculation converts positive American odds as
odds/100 + 1 and negative odds as 100/|odds| + 1, computes
edge = probability * (decimal - 1) * 100 - (1 - probability) * 100, and at
probability 1/2 with odds -110 yields exactly -50/11, which is negative. -/
theorem C4_edge_formula_and_fair_odds_value :
    (∀ (p : ℚ) (odds : ℤ),
        CoreMC.calculateEdge p odds =
          p * (CoreMC.americanToDecimal odds - 1) * 100 - (1 - p) * 100) ∧
    (∀ odds : ℤ, 0 < odds →
        CoreMC.americanToDecimal odds = ((odds : ℚ) / 100) + 1) ∧
    (∀ odds : ℤ, odds < 0 →
        CoreMC.americanToDecimal odds = (100 / |(odds : ℚ)|) + 1) ∧
    CoreMC.americanToDecimal (-110) = 21 / 11 ∧
    CoreMC.calculateEdge (1/2) (-110) = -(50/11) ∧
    CoreMC.calculateEdge (1/2) (-110) < 0 := by
  refine ⟨?_, ?_, ?_, ?_, ?_, ?_⟩
  · intro p odds
    unfold CoreMC.calculateEdge
    ring
  · intro odds h
    unfold CoreMC.americanToDecimal
    rw [if_pos h]
  · intro odds h
    unfold CoreMC.americanToDecimal
    rw [if_neg (by omega)]
  · unfold CoreMC.americanToDecimal
    norm_num
  · unfold CoreMC.calculateEdge CoreMC.americanToDecimal
    norm_num
  · unfold CoreMC.calculateEdge CoreMC.americanToDecimal
    norm_num

/-- Witness for C4, discharging the sign hypotheses of the conversion
conjuncts at odds +150 and -110. -/
theorem C4_edge_formula_and_fair_odds_value_witness :
    CoreMC.americanToDecimal 150 = (((150 : ℤ) : ℚ) / 100) + 1 ∧
    CoreMC.americanToDecimal (-110) = (100 / |((-110 : ℤ) : ℚ)|) + 1 ∧
    CoreMC.calculateEdge (1/2) (-110) =
      (1/2) * (CoreMC.americanToDecimal (-110) - 1) * 100 - (1 - 1/2) * 100 := by
  refine ⟨?_, ?_, ?_⟩
  · exact C4_edge_formula_and_fair_odds_value.2.1 150 (by decide)
  · exact C4_edge_formula_and_fair_odds_value.2.2.1 (-110) (by decide)
  · exact C4_edge_formula_and_fair_odds_value.1 (1/2) (-110)

/-- Claim C5: the recommendation is PASS exactly when edge < 3.0 and
confidence < 55 both hold, and otherwise follows the larger probability; in
particular edge 2.9 with confidence 50 gives PASS, and edge 2.9 with
confidence 70 and prob-over larger gives OVER. -/
theorem C5_recommendation_gate :
    (∀ e c po pu : ℚ,
        PredictionService.getRecommendation e c po pu =
          if e < 3 ∧ c < 55 then "PASS"
          else if pu < po then "OVER" else "UNDER") ∧
    (∀ po pu : ℚ, PredictionService.getRecommendation (29/10) 50 po pu = "PASS") ∧
    PredictionService.getRecommendation (29/10) 70 (3/5) (2/5) = "OVER" := by
  refine ⟨fun e c po pu => rfl, ?_, ?_⟩
  · intro po pu
    unfold PredictionService.getRecommendation
    rw [if_pos (by norm_num)]
  · unfold PredictionService.getRecommendation
    rw [if_neg (by norm_num), if_pos (by norm_num)]

/-- Claim C10: the Monte Carlo confidence score always lies in [50, 100]
because the over/under probabilities are complementary fractions of one
sample set, and a PASS recommendation built from that confidence score can
occur only with confidence in [50, 55). -/
theorem C10_confidence_range_and_pass_band (samples : List ℚ) (line : ℚ)
    (h : samples ≠ []) :
    50 ≤ CoreMC.confidenceScore samples line ∧
    CoreMC.confidenceScore samples line ≤ 100 ∧
    ∀ e : ℚ,
      PredictionService.getRecommendation e (CoreMC.confidenceScore samples line)
          (CoreMC.probOver samples line) (CoreMC.probUnder samples line) = "PASS" →
        50 ≤ CoreMC.confidenceScore samples line ∧
        CoreMC.confidenceScore samples line < 55 := by
  have hsum := CoreMC.probOver_add_probUnder samples line h
  have h1 := CoreMC.probOver_le_one samples line
  have h2 := CoreMC.probUnder_le_one samples line
  have hmax1 := le_max_left (CoreMC.probOver samples line) (CoreMC.probUnder samples line)
  have hmax2 := le_max_right (CoreMC.probOver samples line) (CoreMC.probUnder samples line)
  have hlow : 50 ≤ CoreMC.confidenceScore samples line := by
    unfold CoreMC.confidenceScore
    nlinarith [hsum, hmax1, hmax2]
  have hhigh : CoreMC.confidenceScore samples line ≤ 100 := by
    unfold CoreMC.confidenceScore
    have : max (CoreMC.probOver samples line) (CoreMC.probUnder samples line) ≤ 1 :=
      max_le h1 h2
    nlinarith [this]
  refine ⟨hlow, hhigh, ?_⟩
  intro e hpass
  refine ⟨hlow, ?_⟩
  unfold PredictionService.getRecommendation at hpass
  by_cases hc : e < 3 ∧ CoreMC.confidenceScore samples line < 55
  · exact hc.2
  · rw [if_neg hc] at hpass
    by_cases hd : CoreMC.probUnder samples line < CoreMC.probOver samples line
    · rw [if_pos hd] at hpass
      exact absurd hpass (by decide)
    · rw [if_neg hd] at hpass
      exact absurd hpass (by decide)

/-- Witness for C10 at the concrete sample set [0, 2] and line 1, with edge 0:
the recommendation there is PASS and the confidence score is exactly 50. -/
theorem C10_confidence_range_and_pass_band_witness :
    50 ≤ CoreMC.confidenceScore [0, 2] 1 ∧
    CoreMC.confidenceScore [0, 2] 1 ≤ 100 ∧
    (50 ≤ CoreMC.confidenceScore [0, 2] 1 ∧ CoreMC.confidenceScore [0, 2] 1 < 55) := by
  have h := C10_confidence_range_and_pass_band [0, 2] 1 (by decide)
  have hpo : CoreMC.probOver [0, 2] 1 = 1/2 := by
    simp [CoreMC.probOver, List.countP_cons, List.countP_nil]
  have hpu : CoreMC.probUnder [0, 2] 1 = 1/2 := by
    simp [CoreMC.probUnder, List.countP_cons, List.countP_nil]
  have hcs : CoreMC.confidenceScore [0, 2] 1 = 50 := by
    unfold CoreMC.confidenceScore
    rw [hpo, hpu, max_self]
    norm_num
  refine ⟨h.1, h.2.1, h.2.2 0 ?_⟩
  rw [hcs, hpo, hpu]
  unfold PredictionService.getRecommendation
  rw [if_pos (by norm_num)]

/-! ## backend/app/services/nba_data_service.py : cleanup_old_data and
backend/scripts/ingest_and_cleanup_db.py : cutoff computation -/

namespace NbaData

/-- Row of the player-game-log table; only the fields the cleanup sweep
touches are relevant, the payload stands for all remaining columns. -/
structure PlayerRow where
  gameDate : Int
  payload : Nat
deriving DecidableEq

/-- Row of the team-defensive-log table. -/
structure TeamRow where
  gameDate : Int
  payload : Nat
deriving DecidableEq

/-- Model of the cutoff computation in `ingest_and_cleanup`
(ingest_and_cleanup_db.py line 69): `cutoff_date = now - timedelta(days=60)`,
with dates as day numbers. -/
def cleanupCutoff (nowDay : Int) : Int := nowDay - 60

/-- Model of `NBADataService.cleanup_old_data` (nba_data_service.py lines
335-364): delete the rows with `game_date < cutoff` from both tables and
report how many rows were deleted. -/
def cleanupOldData (cutoff : Int) (players : List PlayerRow) (teams : List TeamRow) :
    List PlayerRow × List TeamRow × Nat :=
  let playersLeft := players.filter (fun r => ¬ r.gameDate < cutoff)
  let teamsLeft := teams.filter (fun r => ¬ r.gameDate < cutoff)
  let deleted := (players.length - playersLeft.length) + (teams.length - teamsLeft.length)
  (playersLeft, teamsLeft, deleted)

end NbaData

/-- Claim C8: after the cleanup runs with now = day D (cutoff D - 60), no row
dated strictly before D - 60 remains in either table, and the surviving rows
are exactly the original rows dated on or after D - 60, unchanged and in
order. -/
theorem C8_sixty_day_retention (D : Int)
    (players : List NbaData.PlayerRow) (teams : List NbaData.TeamRow) :
    (∀ r ∈ (NbaData.cleanupOldData (NbaData.cleanupCutoff D) players teams).1,
        ¬ r.gameDate < D - 60) ∧
    (∀ r ∈ (NbaData.cleanupOldData (NbaData.cleanupCutoff D) players teams).2.1,
        ¬ r.gameDate < D - 60) ∧
    (NbaData.cleanupOldData (NbaData.cleanupCutoff D) players teams).1 =
      players.filter (fun r => decide (D - 60 ≤ r.gameDate)) ∧
    (NbaData.cleanupOldData (NbaData.cleanupCutoff D) players teams).2.1 =
      teams.filter (fun r => decide (D - 60 ≤ r.gameDate)) ∧
    (∀ r ∈ players, D - 60 ≤ r.gameDate →
        r ∈ (NbaData.cleanupOldData (NbaData.cleanupCutoff D) players teams).1) ∧
    (∀ r ∈ teams, D - 60 ≤ r.gameDate →
        r ∈ (NbaData.cleanupOldData (NbaData.cleanupCutoff D) players teams).2.1) := by
  unfold NbaData.cleanupOldData NbaData.cleanupCutoff
  dsimp only
  refine ⟨?_, ?_, ?_, ?_, ?_, ?_⟩
  · intro r hr
    have := List.of_mem_filter hr
    simpa using this
  · intro r hr
    have := List.of_mem_filter hr
    simpa using this
  · apply List.filter_congr
    intro r _
    simp only [decide_eq_decide]
    omega
  · apply List.filter_congr
    intro r _
    simp only [decide_eq_decide]
    omega
  · intro r hr hdate
    apply List.mem_filter_of_mem hr
    simp only [decide_eq_true_eq]
    omega
  · intro r hr hdate
    apply List.mem_filter_of_mem hr
    simp only [decide_eq_true_eq]
    omega

/-- Witness for C8 with now = day 100 over a two-row player table (days 30
and 90) and a one-row team table (day 10): the day-90 row survives. -/
theorem C8_sixty_day_retention_witness :
    (NbaData.cleanupOldData (NbaData.cleanupCutoff 100)
        [⟨30, 0⟩, ⟨90, 1⟩] [⟨10, 2⟩]).1 =
      [(⟨90, 1⟩ : NbaData.PlayerRow)] ∧
    (NbaData.cleanupOldData (NbaData.cleanupCutoff 100)
        [⟨30, 0⟩, ⟨90, 1⟩] [⟨10, 2⟩]).2.1 = ([] : List NbaData.TeamRow) ∧
    (⟨90, 1⟩ : NbaData.PlayerRow) ∈
      (NbaData.cleanupOldData (NbaData.cleanupCutoff 100)
        [⟨30, 0⟩, ⟨90, 1⟩] [⟨10, 2⟩]).1 := by
  have h := C8_sixty_day_retention 100 [⟨30, 0⟩, ⟨90, 1⟩] [⟨10, 2⟩]
  refine ⟨?_, ?_, ?_⟩
  · rw [h.2.2.1]
    decide
  · rw [h.2.2.2.1]
    decide
  · exact h.2.2.2.2.1 ⟨90, 1⟩ (by decide) (by decide)

/-! ## backend/app/utils/calibration.py, backend/app/utils/distributions.py,
backend/app/services/monte_carlo.py : generic multi-sport simulator -/

namespace PropsSim

/-- Model of `clamp_prob` (calibration.py): `max(0.0, min(1.0, p))`. -/
def clampProb (p : ℚ) : ℚ := max 0 (min 1 p)

/-- Model of `choose_distribution` (distributions.py lines 11-15). -/
def chooseDistribution (statType : String) : String :=
  if statType = "shots" ∨ statType = "goals" ∨ statType = "saves" then "poisson"
  else "normal"

/-- Model of the scale floor in `sample_normal` (distributions.py line 4):
`std = max(std, 1e-6)` is the standard deviation actually passed to the
normal RNG. -/
def sampleNormalScale (std : ℚ) : ℚ := max std (1 / 1000000)

/-- Model of the rate floor in `sample_poisson` (distributions.py line 8):
`lam = max(lam, 1e-6)` is the rate actually passed to the Poisson RNG. -/
def samplePoissonRate (lam : ℚ) : ℚ := max lam (1 / 1000000)

/-- Model of the sample post-processing in `run_props_monte_carlo`
(monte_carlo.py lines 8-13): Poisson draws are used as-is, normal draws are
clipped to non-negative values via `np.clip(samples, 0, None)`. The raw RNG
draws are an explicit argument. -/
def effectiveSamples (statType : String) (raw : List ℚ) : List ℚ :=
  if chooseDistribution statType = "poisson" then raw
  else raw.map (fun x => max x 0)

/-- Result record of `run_props_monte_carlo`: over/under probabilities and
the first 250 samples as a distribution preview. -/
structure PropsMCResult where
  over : ℚ
  under : ℚ
  preview : List ℚ
deriving DecidableEq

/-- Model of `run_props_monte_carlo` (services/monte_carlo.py lines 5-18):
`over = mean(samples > line)`, `under = 1 - over`, both clamped into [0, 1],
plus the first 250 samples. -/
def runPropsMonteCarlo (statType : String) (raw : List ℚ) (line : ℚ) :
    PropsMCResult :=
  let samples := effectiveSamples statType raw
  let over := (samples.countP (fun s => decide (line < s)) : ℚ) / (samples.length : ℚ)
  let under := 1 - over
  { over := clampProb over, under := clampProb under, preview := samples.take 250 }

lemma clampProb_mem_unitInterval (p : ℚ) : 0 ≤ clampProb p ∧ clampProb p ≤ 1 := by
  unfold clampProb
  constructor
  · exact le_max_left 0 _
  · exact max_le (by norm_num) (min_le_left 1 p)

end PropsSim

/-- Claim C9: in the generic multi-sport simulator, shots/goals/saves use the
Poisson sampler whose rate is floored at 1e-6, every other stat type uses the
normal sampler whose scale is floored at 1e-6 and whose draws are clipped to
non-negative values; the returned under probability is the clamp of one minus
the pre-clamp over fraction, both returned probabilities lie in [0, 1], and
the clamp sends 1.7 to 1, -0.3 to 0 and 0.42 to itself. -/
theorem C9_generic_simulator_distributions_and_clamp :
    (∀ st : String,
        PropsSim.chooseDistribution st =
          if st = "shots" ∨ st = "goals" ∨ st = "saves" then "poisson" else "normal") ∧
    (∀ lam : ℚ, PropsSim.samplePoissonRate lam = max lam (1 / 1000000) ∧
        0 < PropsSim.samplePoissonRate lam) ∧
    (∀ std : ℚ, PropsSim.sampleNormalScale std = max std (1 / 1000000) ∧
        0 < PropsSim.sampleNormalScale std) ∧
    (∀ (st : String) (raw : List ℚ),
        PropsSim.chooseDistribution st = "normal" →
          ∀ x ∈ PropsSim.effectiveSamples st raw, 0 ≤ x) ∧
    (∀ (st : String) (raw : List ℚ) (line : ℚ),
        (PropsSim.runPropsMonteCarlo st raw line).under =
          PropsSim.clampProb (1 -
            ((PropsSim.effectiveSamples st raw).countP (fun s => decide (line < s)) : ℚ) /
              ((PropsSim.effectiveSamples st raw).length : ℚ)) ∧
        0 ≤ (PropsSim.runPropsMonteCarlo st raw line).over ∧
        (PropsSim.runPropsMonteCarlo st raw line).over ≤ 1 ∧
        0 ≤ (PropsSim.runPropsMonteCarlo st raw line).under ∧
        (PropsSim.runPropsMonteCarlo st raw line).under ≤ 1) ∧
    PropsSim.clampProb (17/10) = 1 ∧
    PropsSim.clampProb (-(3/10)) = 0 ∧
    PropsSim.clampProb (42/100) = 42/100 := by
  refine ⟨fun st => rfl, ?_, ?_, ?_, ?_, ?_, ?_, ?_⟩
  · intro lam
    exact ⟨rfl, lt_max_of_lt_right (by norm_num)⟩
  · intro std
    exact ⟨rfl, lt_max_of_lt_right (by norm_num)⟩
  · intro st raw hnormal x hx
    unfold PropsSim.effectiveSamples at hx
    rw [hnormal] at hx
    simp only [if_neg (by decide : ¬ ("normal" : String) = "poisson")] at hx
    obtain ⟨y, _, rfl⟩ := List.mem_map.mp hx
    exact le_max_right y 0
  · intro st raw line
    refine ⟨rfl, ?_, ?_, ?_, ?_⟩
    · exact (PropsSim.clampProb_mem_unitInterval _).1
    · exact (PropsSim.clampProb_mem_unitInterval _).2
    · exact (PropsSim.clampProb_mem_unitInterval _).1
    · exact (PropsSim.clampProb_mem_unitInterval _).2
  · unfold PropsSim.clampProb
    norm_num
  · unfold PropsSim.clampProb
    norm_num
  · unfold PropsSim.clampProb
    norm_num

/-- Witness for C9: the normal branch for stat type points really clips; at
raw draws [-2, 3] the effective samples are [0, 3], all non-negative. -/
theorem C9_generic_simulator_distributions_and_clamp_witness :
    PropsSim.chooseDistribution "points" = "normal" ∧
    (∀ x ∈ PropsSim.effectiveSamples "points" [-2, 3], 0 ≤ x) ∧
    PropsSim.effectiveSamples "points" [-2, 3] = [0, 3] := by
  refine ⟨rfl, ?_, by decide⟩
  exact C9_generic_simulator_distributions_and_clamp.2.2.2.1 "points" [-2, 3] rfl

/-! ## backend/app/services/feature_service.py : FeatureCalculationService -/

namespace FeatureService

/-- Row of the player_game_logs table as read by the feature service; the
sample standard deviation of points (a square root) lies outside the rational
fragment and none of the claims depend on it, so it is not carried. -/
structure PlayerGameLog where
  player : String
  gameDate : Int
  position : String
  matchup : List Char
  points : ℚ
  minutes : ℚ
  fgAttempted : ℚ
  fg3Attempted : ℚ
  fg3Made : ℚ
  ftAttempted : ℚ
  rebounds : ℚ
  assists : ℚ
  turnovers : ℚ
deriving DecidableEq

/-- Error raised by `get_player_rolling_stats` (feature_service.py lines
77-81); it names the player, the number of games found and the number
needed. -/
inductive FeatureError where
  | insufficientData (player : String) (found : Nat) (needed : Nat)
deriving DecidableEq

/-- The WHERE clause of the rolling-stats query (feature_service.py lines
65-70): games of this player with `game_date < game_date` of the
prediction. -/
def qualifyingGames (db : List PlayerGameLog) (playerName : String)
    (gameDate : Int) : List PlayerGameLog :=
  db.filter (fun g => g.player = playerName ∧ g.gameDate < gameDate)

/-- Descending-by-date comparator of the `ORDER BY game_date DESC` clause. -/
def dateDescBool (a b : PlayerGameLog) : Bool := decide (b.gameDate ≤ a.gameDate)

/-- The ORDER BY of the rolling-stats query: qualifying games sorted by date
descending. -/
def sortedByDateDesc (l : List PlayerGameLog) : List PlayerGameLog :=
  l.mergeSort dateDescBool

/-- The LIMIT clause: the first `lookbackDays` games of the descending
order, i.e. the most recent ones. -/
def windowGames (db : List PlayerGameLog) (playerName : String)
    (gameDate : Int) (lookbackDays : Nat) : List PlayerGameLog :=
  (sortedByDateDesc (qualifyingGames db playerName gameDate)).take lookbackDays

/-- Rolling aggregate record built by `get_player_rolling_stats`
(feature_service.py lines 99-117), sans the points standard deviation. -/
structure RollingStats where
  pts : ℚ
  minutes : ℚ
  fga : ℚ
  fg3a : ℚ
  fg3m : ℚ
  reb : ℚ
  ast : ℚ
  ptsPerMin : ℚ
  usage : ℚ
deriving DecidableEq

/-- Pandas column mean. -/
def meanQ (l : List ℚ) : ℚ := l.sum / (l.length : ℚ)

/-- The aggregation step of `get_player_rolling_stats` (feature_service.py
lines 96-117) over a window of games: column means, points per minute
guarded against a zero minutes mean, and the usage proxy
`FGA + 0.44*FTA + TOV`. -/
def rollingStatsOf (games : List PlayerGameLog) : RollingStats :=
  let pts := meanQ (games.map PlayerGameLog.points)
  let minutes := meanQ (games.map PlayerGameLog.minutes)
  { pts := pts
    minutes := minutes
    fga := meanQ (games.map PlayerGameLog.fgAttempted)
    fg3a := meanQ (games.map PlayerGameLog.fg3Attempted)
    fg3m := meanQ (games.map PlayerGameLog.fg3Made)
    reb := meanQ (games.map PlayerGameLog.rebounds)
    ast := meanQ (games.map PlayerGameLog.assists)
    ptsPerMin := if 0 < minutes then pts / minutes else 0
    usage := meanQ (games.map
      (fun g => g.fgAttempted + (44/100) * g.ftAttempted + g.turnovers)) }

/-- Model of `FeatureCalculationService.get_player_rolling_stats`
(feature_service.py lines 47-119): query the most recent `lookbackDays`
games strictly before the prediction date; fail with the insufficient-data
error if fewer were found, otherwise aggregate the full window. -/
def getPlayerRollingStats (db : List PlayerGameLog) (playerName : String)
    (gameDate : Int) (lookbackDays : Nat) : Except FeatureError RollingStats :=
  let games := windowGames db playerName gameDate lookbackDays
  if games.length < lookbackDays then
    .error (.insufficientData playerName games.length lookbackDays)
  else
    .ok (rollingStatsOf games)

lemma dateDescBool_trans (a b c : PlayerGameLog) :
    dateDescBool a b = true → dateDescBool b c = true → dateDescBool a c = true := by
  unfold dateDescBool
  simp only [decide_eq_true_eq]
  omega

lemma dateDescBool_total (a b : PlayerGameLog) :
    (dateDescBool a b || dateDescBool b a) = true := by
  unfold dateDescBool
  rcases le_total a.gameDate b.gameDate with h | h <;> simp [h]

lemma length_sortedByDateDesc (l : List PlayerGameLog) :
    (sortedByDateDesc l).length = l.length :=
  (List.mergeSort_perm l dateDescBool).length_eq

lemma length_windowGames (db : List PlayerGameLog) (playerName : String)
    (gameDate : Int) (n : Nat) :
    (windowGames db playerName gameDate n).length =
      min n (qualifyingGames db playerName gameDate).length := by
  unfold windowGames
  rw [List.length_take, length_sortedByDateDesc]

end FeatureService

/-- Claim C2: the rolling-stats operation selects the N most recent games of
the player strictly before the prediction date in descending date order;
with fewer than N such games it fails with an insufficient-data error naming
the player and the number found, and it returns an aggregate only over a
full window of exactly N games. -/
theorem C2_rolling_stats_window_and_error
    (db : List FeatureService.PlayerGameLog) (name : String) (d : Int) (n : Nat) :
    ((FeatureService.qualifyingGames db name d).length < n →
      FeatureService.getPlayerRollingStats db name d n =
        .error (.insufficientData name
          (FeatureService.qualifyingGames db name d).length n)) ∧
    (n ≤ (FeatureService.qualifyingGames db name d).length →
      (FeatureService.windowGames db name d n).length = n ∧
      (∀ g ∈ FeatureService.windowGames db name d n,
        g.player = name ∧ g.gameDate < d) ∧
      (FeatureService.windowGames db name d n ++
        (FeatureService.sortedByDateDesc
          (FeatureService.qualifyingGames db name d)).drop n).Perm
        (FeatureService.qualifyingGames db name d) ∧
      (∀ x ∈ FeatureService.windowGames db name d n,
        ∀ y ∈ (FeatureService.sortedByDateDesc
          (FeatureService.qualifyingGames db name d)).drop n,
          y.gameDate ≤ x.gameDate) ∧
      List.Pairwise (fun a b => b.gameDate ≤ a.gameDate)
        (FeatureService.windowGames db name d n) ∧
      FeatureService.getPlayerRollingStats db name d n =
        .ok (FeatureService.rollingStatsOf (FeatureService.windowGames db name d n)) ∧
      (FeatureService.rollingStatsOf (FeatureService.windowGames db name d n)).pts =
        ((FeatureService.windowGames db name d n).map
          FeatureService.PlayerGameLog.points).sum / (n : ℚ)) ∧
    (∀ st, FeatureService.getPlayerRollingStats db name d n = .ok st →
      n ≤ (FeatureService.qualifyingGames db name d).length) := by
  have hwin := FeatureService.length_windowGames db name d n
  have hperm : (FeatureService.sortedByDateDesc
      (FeatureService.qualifyingGames db name d)).Perm
      (FeatureService.qualifyingGames db name d) :=
    List.mergeSort_perm (FeatureService.qualifyingGames db name d)
      FeatureService.dateDescBool
  have hsorted : List.Pairwise (fun a b => FeatureService.dateDescBool a b = true)
      (FeatureService.sortedByDateDesc (FeatureService.qualifyingGames db name d)) :=
    List.sorted_mergeSort FeatureService.dateDescBool_trans
      FeatureService.dateDescBool_total (FeatureService.qualifyingGames db name d)
  refine ⟨?_, ?_, ?_⟩
  · intro h
    unfold FeatureService.getPlayerRollingStats
    have hlen : (FeatureService.windowGames db name d n).length =
        (FeatureService.qualifyingGames db name d).length := by
      rw [hwin]; omega
    dsimp only
    rw [hlen, if_pos h]
  · intro h
    have hlen : (FeatureService.windowGames db name d n).length = n := by
      rw [hwin]; omega
    have hmemq : ∀ g ∈ FeatureService.windowGames db name d n,
        g ∈ FeatureService.qualifyingGames db name d := by
      intro g hg
      exact hperm.mem_iff.mp (List.mem_of_mem_take hg)
    refine ⟨hlen, ?_, ?_, ?_, ?_, ?_, ?_⟩
    · intro g hg
      have := List.mem_filter.mp (hmemq g hg)
      simpa using this.2
    · rw [show FeatureService.windowGames db name d n ++
          (FeatureService.sortedByDateDesc
            (FeatureService.qualifyingGames db name d)).drop n =
          FeatureService.sortedByDateDesc (FeatureService.qualifyingGames db name d) from
        List.take_append_drop n _]
      exact hperm
    · have hsplit := List.take_append_drop n
        (FeatureService.sortedByDateDesc (FeatureService.qualifyingGames db name d))
      rw [← hsplit] at hsorted
      have hparts := (List.pairwise_append.mp hsorted).2.2
      intro x hx y hy
      unfold FeatureService.windowGames at hx
      have hb := hparts x hx y hy
      unfold FeatureService.dateDescBool at hb
      exact of_decide_eq_true hb
    · have := hsorted.sublist (List.take_sublist n _)
      refine this.imp ?_
      intro a b hb
      unfold FeatureService.dateDescBool at hb
      exact of_decide_eq_true hb
    · unfold FeatureService.getPlayerRollingStats
      dsimp only
      rw [hlen, if_neg (lt_irrefl n)]
    · unfold FeatureService.rollingStatsOf FeatureService.meanQ
      dsimp only
      rw [List.length_map, hlen]
  · intro st hst
    by_contra hq
    have h : (FeatureService.qualifyingGames db name d).length < n := by omega
    have hlen : (FeatureService.windowGames db name d n).length < n := by
      rw [hwin]; omega
    unfold FeatureService.getPlayerRollingStats at hst
    rw [if_pos hlen] at hst
    exact Except.noConfusion hst

/-- Concrete player-game row for the C2 witness database. -/
def c2Row (d : Int) : FeatureService.PlayerGameLog :=
  ⟨"A", d, "Guard", [], 7, 30, 10, 4, 2, 5, 5, 4, 2⟩

/-- Twelve-game witness database for C2. -/
def c2Db12 : List FeatureService.PlayerGameLog :=
  (List.range 12).map (fun i => c2Row ((i : Int) + 1))

/-- Seven-game witness database for C2. -/
def c2Db7 : List FeatureService.PlayerGameLog :=
  (List.range 7).map (fun i => c2Row ((i : Int) + 1))

/-- Witness for C2: an L10 request over a seven-game history fails with the
insufficient-data error naming the player and the count 7, while over a
twelve-game history it returns the full ten-game aggregate. -/
theorem C2_rolling_stats_window_and_error_witness :
    FeatureService.getPlayerRollingStats c2Db7 "A" 100 10 =
      .error (.insufficientData "A" 7 10) ∧
    FeatureService.getPlayerRollingStats c2Db12 "A" 100 10 =
      .ok (FeatureService.rollingStatsOf (FeatureService.windowGames c2Db12 "A" 100 10)) ∧
    (FeatureService.windowGames c2Db12 "A" 100 10).length = 10 ∧
    (FeatureService.rollingStatsOf (FeatureService.windowGames c2Db12 "A" 100 10)).pts =
      ((FeatureService.windowGames c2Db12 "A" 100 10).map
        FeatureService.PlayerGameLog.points).sum / (10 : ℚ) := by
  have h7 := C2_rolling_stats_window_and_error c2Db7 "A" 100 10
  have h12 := C2_rolling_stats_window_and_error c2Db12 "A" 100 10
  have hq7 : (FeatureService.qualifyingGames c2Db7 "A" 100).length = 7 := by decide
  have hq12 : 10 ≤ (FeatureService.qualifyingGames c2Db12 "A" 100).length := by decide
  refine ⟨?_, (h12.2.1 hq12).2.2.2.2.2.1, (h12.2.1 hq12).1, (h12.2.1 hq12).2.2.2.2.2.2⟩
  have := h7.1 (by rw [hq7]; omega)
  rw [hq7] at this
  exact this

namespace FeatureService

/-- The WHERE clause of `get_positional_defense_stats` (feature_service.py
lines 260-267): rows of players at this position, strictly before the
prediction date, whose matchup string contains the opponent abbreviation. -/
def posQualifying (db : List PlayerGameLog) (oppAbbr : List Char)
    (pos : String) (gameDate : Int) : List PlayerGameLog :=
  db.filter (fun g => g.position = pos ∧ g.gameDate < gameDate ∧
    oppAbbr <:+: g.matchup)

/-- Descending comparator on dates used by
`sorted(games_by_date.keys(), reverse=True)`. -/
def intDescBool (a b : Int) : Bool := decide (b ≤ a)

/-- Model of `sorted(games_by_date.keys(), reverse=True)` (feature_service.py
line 286): the distinct game dates of the qualifying rows, descending. -/
def distinctDatesDesc (games : List PlayerGameLog) : List Int :=
  ((games.map PlayerGameLog.gameDate).dedup).mergeSort intDescBool

/-- The per-date group total of `games_by_date` (feature_service.py lines
279-283): the summed points of all qualifying rows on one game date. -/
def dateTotal (games : List PlayerGameLog) (dt : Int) : ℚ :=
  ((games.filter (fun g => g.gameDate = dt)).map PlayerGameLog.points).sum

/-- Model of `FeatureCalculationService.get_positional_defense_stats`
(feature_service.py lines 231-292): default 55.0 for positions outside
Guard/Forward/Center and when fewer than 5 qualifying rows exist; otherwise
the average of the per-date totals over the most recent lookback dates. -/
def getPositionalDefenseStats (db : List PlayerGameLog) (oppAbbr : List Char)
    (pos : String) (gameDate : Int) (lookbackDays : Nat) : ℚ :=
  if pos = "Guard" ∨ pos = "Forward" ∨ pos = "Center" then
    let games := sortedByDateDesc (posQualifying db oppAbbr pos gameDate)
    if games.length < 5 then 55
    else
      let sortedDates := (distinctDatesDesc games).take lookbackDays
      if sortedDates.length = 0 then 55
      else (sortedDates.map (dateTotal games)).sum / (sortedDates.length : ℚ)
  else 55

lemma intDescBool_trans (a b c : Int) :
    intDescBool a b = true → intDescBool b c = true → intDescBool a c = true := by
  unfold intDescBool
  simp only [decide_eq_true_eq]
  omega

lemma intDescBool_total (a b : Int) :
    (intDescBool a b || intDescBool b a) = true := by
  unfold intDescBool
  rcases le_total a b with h | h <;> simp [h]

end FeatureService

/-- Guard rows of the C7 counterexample database; five qualifying rows
against LAL spread over only two distinct game dates. -/
def c7Row (d : Int) : FeatureService.PlayerGameLog :=
  ⟨"B", d, "Guard", ['v', 's', '.', ' ', 'L', 'A', 'L'], 10, 30, 10, 4, 2, 5, 5, 4, 2⟩

/-- C7 counterexample database: dates 1, 1, 1, 2, 2. -/
def c7Db : List FeatureService.PlayerGameLog :=
  [c7Row 1, c7Row 1, c7Row 1, c7Row 2, c7Row 2]

unseal List.merge List.mergeSort in
/-- Counterexample to C7 as stated: against this database only 2 distinct
qualifying game dates exist (fewer than 5), yet the operation does not return
the 55.0 default — it returns 25, the average of the two per-date totals,
because the code guards on the count of player-game rows (5 here), not on
the count of distinct games. -/
theorem C7_positional_defense_counterexample :
    (FeatureService.distinctDatesDesc (FeatureService.sortedByDateDesc
      (FeatureService.posQualifying c7Db ['L', 'A', 'L'] "Guard" 10))).length = 2 ∧
    (2 : Nat) < 5 ∧
    FeatureService.getPositionalDefenseStats c7Db ['L', 'A', 'L'] "Guard" 10 5 = 25 ∧
    (25 : ℚ) ≠ 55 := by
  have hq : FeatureService.posQualifying c7Db ['L', 'A', 'L'] "Guard" 10 = c7Db := by
    decide
  have hs : FeatureService.sortedByDateDesc c7Db =
      [c7Row 2, c7Row 2, c7Row 1, c7Row 1, c7Row 1] := by
    decide
  have hd : FeatureService.distinctDatesDesc
      [c7Row 2, c7Row 2, c7Row 1, c7Row 1, c7Row 1] = [2, 1] := by
    decide
  refine ⟨by rw [hq, hs, hd]; rfl, by norm_num, ?_, by norm_num⟩
  unfold FeatureService.getPositionalDefenseStats
  rw [if_pos (Or.inl rfl)]
  dsimp only
  rw [hq, hs, hd]
  norm_num [FeatureService.dateTotal, c7Row, List.filter]

/-- Claim C7 (amended): for positions Guard/Forward/Center the operation
returns the 55.0 default when fewer than 5 qualifying player-game ROWS exist
(not distinct games); with at least 5 qualifying rows it sums points of
qualifying rows grouped by game date and returns the average of the per-date
totals over the most recent min(N, number of distinct dates) dates, every
contributing row being of that position, strictly before the prediction
date, and matched against the opponent abbreviation. -/
theorem C7_positional_defense_amended
    (db : List FeatureService.PlayerGameLog) (opp : List Char) (pos : String)
    (d : Int) (n : Nat) (hn : 1 ≤ n)
    (hpos : pos = "Guard" ∨ pos = "Forward" ∨ pos = "Center") :
    ((FeatureService.sortedByDateDesc
        (FeatureService.posQualifying db opp pos d)).length < 5 →
      FeatureService.getPositionalDefenseStats db opp pos d n = 55) ∧
    (5 ≤ (FeatureService.sortedByDateDesc
        (FeatureService.posQualifying db opp pos d)).length →
      (∀ g ∈ FeatureService.sortedByDateDesc (FeatureService.posQualifying db opp pos d),
        g.position = pos ∧ g.gameDate < d ∧ opp <:+: g.matchup) ∧
      ((FeatureService.distinctDatesDesc (FeatureService.sortedByDateDesc
        (FeatureService.posQualifying db opp pos d))).take n).length =
        min n (((FeatureService.sortedByDateDesc
          (FeatureService.posQualifying db opp pos d)).map
            FeatureService.PlayerGameLog.gameDate).dedup).length ∧
      (FeatureService.distinctDatesDesc (FeatureService.sortedByDateDesc
        (FeatureService.posQualifying db opp pos d))).take n ≠ [] ∧
      List.Pairwise (fun a b => b ≤ a)
        ((FeatureService.distinctDatesDesc (FeatureService.sortedByDateDesc
          (FeatureService.posQualifying db opp pos d))).take n) ∧
      (∀ dt ∈ (FeatureService.distinctDatesDesc (FeatureService.sortedByDateDesc
          (FeatureService.posQualifying db opp pos d))).take n,
        dt ∈ (FeatureService.sortedByDateDesc
          (FeatureService.posQualifying db opp pos d)).map
            FeatureService.PlayerGameLog.gameDate) ∧
      (∀ dt ∈ ((FeatureService.sortedByDateDesc
          (FeatureService.posQualifying db opp pos d)).map
            FeatureService.PlayerGameLog.gameDate).dedup,
        dt ∉ (FeatureService.distinctDatesDesc (FeatureService.sortedByDateDesc
          (FeatureService.posQualifying db opp pos d))).take n →
        ∀ x ∈ (FeatureService.distinctDatesDesc (FeatureService.sortedByDateDesc
          (FeatureService.posQualifying db opp pos d))).take n, dt ≤ x) ∧
      FeatureService.getPositionalDefenseStats db opp pos d n =
        (((FeatureService.distinctDatesDesc (FeatureService.sortedByDateDesc
          (FeatureService.posQualifying db opp pos d))).take n).map
            (FeatureService.dateTotal (FeatureService.sortedByDateDesc
              (FeatureService.posQualifying db opp pos d)))).sum /
          ((((FeatureService.distinctDatesDesc (FeatureService.sortedByDateDesc
            (FeatureService.posQualifying db opp pos d))).take n).length : ℚ))) := by
  set games := FeatureService.sortedByDateDesc (FeatureService.posQualifying db opp pos d)
    with hgames
  set dd := FeatureService.distinctDatesDesc games with hdd
  have hrowperm : games.Perm (FeatureService.posQualifying db opp pos d) :=
    List.mergeSort_perm _ _
  have hddperm : dd.Perm ((games.map FeatureService.PlayerGameLog.gameDate).dedup) :=
    List.mergeSort_perm _ _
  have hddsorted : List.Pairwise (fun a b => FeatureService.intDescBool a b = true) dd :=
    List.sorted_mergeSort FeatureService.intDescBool_trans
      FeatureService.intDescBool_total _
  constructor
  · intro h
    unfold FeatureService.getPositionalDefenseStats
    rw [if_pos hpos]
    dsimp only
    rw [← hgames, if_pos h]
  · intro h
    have hlen : (dd.take n).length = min n
        ((games.map FeatureService.PlayerGameLog.gameDate).dedup).length := by
      rw [List.length_take, hddperm.length_eq]
    have hddlenpos :
        1 ≤ ((games.map FeatureService.PlayerGameLog.gameDate).dedup).length := by
      rcases List.exists_mem_of_length_pos (by omega : 0 < games.length) with ⟨g, hg⟩
      have : g.gameDate ∈ (games.map FeatureService.PlayerGameLog.gameDate).dedup :=
        List.mem_dedup.mpr (List.mem_map_of_mem _ hg)
      have := List.length_pos.mpr (List.ne_nil_of_mem this)
      omega
    have hne : dd.take n ≠ [] := by
      apply List.ne_nil_of_length_pos
      rw [hlen]
      omega
    refine ⟨?_, hlen, hne, ?_, ?_, ?_, ?_⟩
    · intro g hg
      have := List.mem_filter.mp (hrowperm.mem_iff.mp hg)
      simpa using this.2
    · have := hddsorted.sublist (List.take_sublist n dd)
      refine this.imp ?_
      intro a b hb
      exact of_decide_eq_true hb
    · intro dt hdt
      have : dt ∈ dd := List.mem_of_mem_take hdt
      exact List.mem_dedup.mp (hddperm.mem_iff.mp this)
    · intro dt hdt hnot x hx
      have hmem : dt ∈ dd := hddperm.mem_iff.mpr hdt
      rw [← List.take_append_drop n dd] at hmem
      rcases List.mem_append.mp hmem with hl | hr
      · exact absurd hl hnot
      · rw [← List.take_append_drop n dd] at hddsorted
        have := (List.pairwise_append.mp hddsorted).2.2 x hx dt hr
        exact of_decide_eq_true this
    · unfold FeatureService.getPositionalDefenseStats
      rw [if_pos hpos]
      dsimp only
      rw [← hgames, if_neg (by omega), ← hdd,
        if_neg (by rw [hlen]; omega)]

unseal List.merge List.mergeSort in
/-- Witness for C7 (amended) at the counterexample database: five qualifying
rows over two distinct dates with lookback 5, where the amended description
gives 50/2 = 25. -/
theorem C7_positional_defense_amended_witness :
    FeatureService.getPositionalDefenseStats c7Db ['L', 'A', 'L'] "Guard" 10 5 =
      (((FeatureService.distinctDatesDesc (FeatureService.sortedByDateDesc
        (FeatureService.posQualifying c7Db ['L', 'A', 'L'] "Guard" 10))).take 5).map
          (FeatureService.dateTotal (FeatureService.sortedByDateDesc
            (FeatureService.posQualifying c7Db ['L', 'A', 'L'] "Guard" 10)))).sum /
        ((((FeatureService.distinctDatesDesc (FeatureService.sortedByDateDesc
          (FeatureService.posQualifying c7Db ['L', 'A', 'L'] "Guard" 10))).take 5).length : ℚ)) ∧
    (FeatureService.distinctDatesDesc (FeatureService.sortedByDateDesc
      (FeatureService.posQualifying c7Db ['L', 'A', 'L'] "Guard" 10))).take 5 ≠ [] := by
  have h := C7_positional_defense_amended c7Db ['L', 'A', 'L'] "Guard" 10 5
    (by norm_num) (Or.inl rfl)
  have hlen : 5 ≤ (FeatureService.sortedByDateDesc
      (FeatureService.posQualifying c7Db ['L', 'A', 'L'] "Guard" 10)).length := by
    decide
  exact ⟨(h.2 hlen).2.2.2.2.2.2, (h.2 hlen).2.2.1⟩

/-! ## backend/data_processing/build_player_features.py : shifted rolling
feature builder -/

namespace PlayerFeatures

/-- Row of the raw player_game_logs frame after the
`sort_values([PLAYER_ID, GAME_DATE])` step (build_player_features.py line
23), projected to the columns that determine the rolling points features. -/
structure CsvRow where
  playerId : Nat
  gameDate : Int
  pts : ℚ
deriving DecidableEq

/-- State threaded through the per-player shift: the last seen points value
of each player. -/
def lastPtsUpdate (last : Nat → Option ℚ) (r : CsvRow) : Nat → Option ℚ :=
  fun p => if p = r.playerId then some r.pts else last p

/-- Model of `group["PTS"].shift(1)` (build_player_features.py line 31): for
each row, the points of the previous row of the same player in frame order,
or missing for the first row of a player. -/
def groupShift : (Nat → Option ℚ) → List CsvRow → List (Option ℚ)
  | _, [] => []
  | last, r :: rs => last r.playerId :: groupShift (lastPtsUpdate last r) rs

/-- No player has a previous row at the start of the frame. -/
def noPrev : Nat → Option ℚ := fun _ => none

/-- A rolling window is usable only when every entry is present; one missing
value poisons the pandas mean at window min_periods = window size. -/
def allSome : List (Option ℚ) → Option (List ℚ)
  | [] => some []
  | none :: _ => none
  | some x :: rest => (allSome rest).map (fun l => x :: l)

/-- Model of `.rolling(w).mean()` at one row index over the whole frame
(the rolling in build_player_features.py runs over the plain shifted series,
not per group): the mean of the w entries ending at this row, missing while
fewer than w rows precede or when any entry of the window is missing. -/
def rollingMeanAt (w : Nat) (l : List (Option ℚ)) (i : Nat) : Option ℚ :=
  if i + 1 < w then none
  else (allSome ((l.drop (i + 1 - w)).take w)).map (fun vals => vals.sum / (w : ℚ))

/-- Model of `.rolling(w).mean()` over the whole series. -/
def rollingMean (w : Nat) (l : List (Option ℚ)) : List (Option ℚ) :=
  (List.range l.length).map (rollingMeanAt w l)

/-- Model of `group["PTS"].shift(1).rolling(w).mean()`. -/
def ptsShiftedRolling (w : Nat) (rows : List CsvRow) : List (Option ℚ) :=
  rollingMean w (groupShift noPrev rows)

/-- The PTS_L5 column (build_player_features.py line 31). -/
def ptsL5 (rows : List CsvRow) : List (Option ℚ) := ptsShiftedRolling 5 rows

/-- The PTS_L10 column (build_player_features.py line 32). -/
def ptsL10 (rows : List CsvRow) : List (Option ℚ) := ptsShiftedRolling 10 rows

lemma groupShift_length (last : Nat → Option ℚ) (xs : List CsvRow) :
    (groupShift last xs).length = xs.length := by
  induction xs generalizing last with
  | nil => rfl
  | cons r rs ih => simp [groupShift, ih]

lemma groupShift_append (xs ys : List CsvRow) (last : Nat → Option ℚ) :
    groupShift last (xs ++ ys) =
      groupShift last xs ++ groupShift (xs.foldl lastPtsUpdate last) ys := by
  induction xs generalizing last with
  | nil => rfl
  | cons r rs ih => simp [groupShift, ih, List.foldl_cons]

lemma foldl_lastPtsUpdate_of_not_mem (xs : List CsvRow) (last : Nat → Option ℚ)
    (p : Nat) (h : ∀ r ∈ xs, r.playerId ≠ p) :
    xs.foldl lastPtsUpdate last p = last p := by
  induction xs generalizing last with
  | nil => rfl
  | cons r rs ih =>
    rw [List.foldl_cons, ih _ (fun x hx => h x (List.mem_cons_of_mem r hx))]
    unfold lastPtsUpdate
    rw [if_neg (fun hp => h r (List.mem_cons_self r rs) hp.symm)]

lemma groupShift_allSame (p : Nat) (g : List CsvRow) :
    ∀ last : Nat → Option ℚ, (∀ r ∈ g, r.playerId = p) → g ≠ [] →
      groupShift last g = last p :: (g.dropLast).map (fun r => some r.pts) := by
  induction g with
  | nil =>
    intro last _ hne
    exact absurd rfl hne
  | cons r rs ih =>
    intro last h _
    have hr : r.playerId = p := h r (List.mem_cons_self r rs)
    cases rs with
    | nil => simp [groupShift, hr]
    | cons s t =>
      have hupd : lastPtsUpdate last r p = some r.pts := by
        unfold lastPtsUpdate
        rw [if_pos hr.symm]
      rw [show groupShift last (r :: s :: t) =
          last r.playerId :: groupShift (lastPtsUpdate last r) (s :: t) from rfl,
        ih (lastPtsUpdate last r) (fun x hx => h x (List.mem_cons_of_mem r hx))
          (by simp), hupd, hr]
      rfl

lemma allSome_map_some (xs : List ℚ) : allSome (xs.map some) = some xs := by
  induction xs with
  | nil => rfl
  | cons x t ih => simp [allSome, ih]

end PlayerFeatures

/-- Claim C1: in the offline player feature builder, the shifted rolling L5
points feature of the sorted frame pre ++ g ++ suf, where g is the block of
one player with at least 11 chronological games and no other block mentions
that player, is, at the player game of index 10 (0-based), exactly the mean
of that player games 5 through 9 — games of other players and games from
index 10 onward do not contribute. -/
theorem C1_no_lookahead_L5_rolling
    (pre g suf : List PlayerFeatures.CsvRow) (p : Nat)
    (hpre : ∀ r ∈ pre, r.playerId ≠ p)
    (hg : ∀ r ∈ g, r.playerId = p)
    (hchron : List.Pairwise (fun a b => a.gameDate ≤ b.gameDate) g)
    (hlen : 11 ≤ g.length) :
    (PlayerFeatures.ptsL5 (pre ++ g ++ suf))[pre.length + 10]? =
      some (some ((((g.drop 5).take 5).map PlayerFeatures.CsvRow.pts).sum / 5)) := by
  have hgne : g ≠ [] := by
    intro h
    rw [h] at hlen
    simp at hlen
  unfold PlayerFeatures.ptsL5 PlayerFeatures.ptsShiftedRolling PlayerFeatures.rollingMean
  set S := PlayerFeatures.groupShift PlayerFeatures.noPrev (pre ++ g ++ suf) with hS
  set l1 := pre.foldl PlayerFeatures.lastPtsUpdate PlayerFeatures.noPrev with hl1def
  set l2 := g.foldl PlayerFeatures.lastPtsUpdate l1 with hl2def
  have hl1p : l1 p = none :=
    PlayerFeatures.foldl_lastPtsUpdate_of_not_mem pre PlayerFeatures.noPrev p hpre
  have hsplit : S = PlayerFeatures.groupShift PlayerFeatures.noPrev pre ++
      ((none :: (g.dropLast).map (fun r => some r.pts)) ++
        PlayerFeatures.groupShift l2 suf) := by
    rw [hS, List.append_assoc, PlayerFeatures.groupShift_append,
      PlayerFeatures.groupShift_append,
      PlayerFeatures.groupShift_allSame p g l1 hg hgne, hl1p, hl2def, hl1def]
  have hA1 : (PlayerFeatures.groupShift PlayerFeatures.noPrev pre).length = pre.length :=
    PlayerFeatures.groupShift_length _ _
  have hSlen : S.length = pre.length + (g.length + suf.length) := by
    rw [hS, PlayerFeatures.groupShift_length]
    simp [List.length_append]
  rw [List.getElem?_map, List.getElem?_range (by rw [hSlen]; omega)]
  have hwin : (S.drop (pre.length + 6)).take 5 =
      ((g.drop 5).take 5).map (fun r => some r.pts) := by
    rw [hsplit, show pre.length + 6 =
        (PlayerFeatures.groupShift PlayerFeatures.noPrev pre).length + 6 from by
      rw [hA1], List.drop_append,
      show ((none :: (g.dropLast).map (fun r => some r.pts)) ++
        PlayerFeatures.groupShift l2 suf) =
        none :: ((g.dropLast).map (fun r => some r.pts) ++
          PlayerFeatures.groupShift l2 suf) from rfl,
      show (6 : Nat) = 5 + 1 from rfl, List.drop_succ_cons,
      List.drop_append_of_le_length (by
        rw [List.length_map, List.length_dropLast]; omega),
      List.take_append_of_le_length (by
        rw [List.length_drop, List.length_map, List.length_dropLast]; omega),
      ← List.map_drop, ← List.map_take]
    congr 1
    rw [List.dropLast_eq_take, List.drop_take, List.take_take,
      show min 5 (g.length - 1 - 5) = 5 from by omega]
  show some (PlayerFeatures.rollingMeanAt 5 S (pre.length + 10)) =
    some (some ((((g.drop 5).take 5).map PlayerFeatures.CsvRow.pts).sum / 5))
  unfold PlayerFeatures.rollingMeanAt
  rw [if_neg (by omega), show pre.length + 10 + 1 - 5 = pre.length + 6 from by omega,
    hwin,
    show (fun r : PlayerFeatures.CsvRow => some r.pts) =
      (fun q : ℚ => some q) ∘ PlayerFeatures.CsvRow.pts from rfl,
    ← List.map_map, PlayerFeatures.allSome_map_some]
  norm_num

/-- Two games of another player (id 1) preceding the C1 witness block. -/
def c1Pre : List PlayerFeatures.CsvRow := [⟨1, 1, 9⟩, ⟨1, 2, 11⟩]

/-- Twelve chronological games of player 2 with points 0, 1, ..., 11. -/
def c1G : List PlayerFeatures.CsvRow :=
  (List.range 12).map (fun i => ⟨2, (i : Int) + 1, (i : ℚ)⟩)

/-- One game of another player (id 3) after the C1 witness block. -/
def c1Suf : List PlayerFeatures.CsvRow := [⟨3, 1, 4⟩]

/-- Witness for C1: with points 0..11 the L5 feature at player game index 10
is (5+6+7+8+9)/5 = 7, not the mean of games 6-10. -/
theorem C1_no_lookahead_L5_rolling_witness :
    (PlayerFeatures.ptsL5 (c1Pre ++ c1G ++ c1Suf))[c1Pre.length + 10]? =
      some (some 7) := by
  have h := C1_no_lookahead_L5_rolling c1Pre c1G c1Suf 2
    (by decide) (by decide) (by decide) (by decide)
  rw [h]
  have hpts : ((c1G.drop 5).take 5).map PlayerFeatures.CsvRow.pts =
      [5, 6, 7, 8, 9] := by decide
  rw [hpts]
  norm_num

/-! ## backend/app/betData/providers/theodds_nba_provider.py : _player_id -/

namespace TheOdds

/-- The whitespace class of the regular expression `\s+` over the ASCII
range: space, tab, newline, carriage return, vertical tab, form feed. -/
def isSpaceChar (c : Char) : Bool :=
  c.toNat = 32 || c.toNat = 9 || c.toNat = 10 || c.toNat = 13 ||
    c.toNat = 11 || c.toNat = 12

/-- Model of python `str.strip()`: remove leading and trailing whitespace. -/
def stripWs (s : List Char) : List Char :=
  ((s.dropWhile isSpaceChar).reverse.dropWhile isSpaceChar).reverse

/-- Model of `re.sub(r"\s+", " ", s)`: replace every maximal whitespace run
by a single space. -/
def collapseWs : List Char → List Char
  | [] => []
  | c :: rest =>
    if isSpaceChar c then ' ' :: collapseWs (rest.dropWhile isSpaceChar)
    else c :: collapseWs rest
termination_by l => l.length
decreasing_by
  · have := (List.dropWhile_sublist (l := rest) isSpaceChar).length_le
    simp only [List.length_cons]
    omega
  · simp only [List.length_cons]
    omega

/-- Model of the normalization in `_player_id` (theodds_nba_provider.py line
38): `re.sub(r"\s+", " ", name.strip().lower())`. -/
def normalizeName (s : List Char) : List Char :=
  collapseWs ((stripWs s).map Char.toLower)

/-- The maximal non-whitespace runs of a string, in order. -/
def splitWs : List Char → List (List Char)
  | [] => []
  | c :: rest =>
    if isSpaceChar c then splitWs rest
    else (c :: rest.takeWhile (fun x => ! isSpaceChar x)) ::
      splitWs (rest.dropWhile (fun x => ! isSpaceChar x))
termination_by l => l.length
decreasing_by
  · simp only [List.length_cons]
    omega
  · have := (List.dropWhile_sublist (l := rest) (fun x => ! isSpaceChar x)).length_le
    simp only [List.length_cons]
    omega

/-- The word sequence that is invariant under case changes and whitespace-run
changes: the non-whitespace runs of the stripped, lower-cased name. -/
def wordsOf (s : List Char) : List (List Char) :=
  splitWs ((stripWs s).map Char.toLower)

/-- Words joined by single spaces. -/
def joinWords : List (List Char) → List Char
  | [] => []
  | [w] => w
  | w :: ws => w ++ ' ' :: joinWords ws

lemma joinWords_cons_extend (a : Char) (w : List Char) (S : List (List Char)) :
    joinWords ((a :: w) :: S) = a :: joinWords (w :: S) := by
  cases S <;> rfl

lemma head_dropWhile_false {p : Char → Bool} {l : List Char} {c : Char}
    (h : (l.dropWhile p).head? = some c) : p c = false := by
  induction l with
  | nil => simp [List.dropWhile] at h
  | cons x t ih =>
    by_cases hx : p x
    · rw [List.dropWhile_cons_of_pos hx] at h
      exact ih h
    · rw [List.dropWhile_cons_of_neg hx] at h
      simp at h
      rw [← h]
      simpa using hx

lemma getLast_dropWhile_of_ne_nil {p : Char → Bool} {l : List Char}
    (h : l.dropWhile p ≠ []) : (l.dropWhile p).getLast? = l.getLast? := by
  induction l with
  | nil => simp [List.dropWhile]
  | cons x t ih =>
    by_cases hx : p x
    · rw [List.dropWhile_cons_of_pos hx] at h ⊢
      cases t with
      | nil => simp [List.dropWhile] at h
      | cons y u => rw [ih h, List.getLast?_cons_cons]
    · rw [List.dropWhile_cons_of_neg hx]

lemma splitWs_dropWhile (xs : List Char) :
    splitWs (xs.dropWhile isSpaceChar) = splitWs xs := by
  induction xs with
  | nil => rfl
  | cons x t ih =>
    by_cases hx : isSpaceChar x
    · rw [List.dropWhile_cons_of_pos hx, ih]
      conv_rhs => rw [splitWs]
      rw [if_pos hx]
    · rw [List.dropWhile_cons_of_neg hx]

end TheOdds

namespace TheOdds

lemma collapseWs_cons (c : Char) (rest : List Char) :
    collapseWs (c :: rest) =
      if isSpaceChar c then ' ' :: collapseWs (rest.dropWhile isSpaceChar)
      else c :: collapseWs rest := by
  conv_lhs => rw [collapseWs]

lemma splitWs_cons (c : Char) (rest : List Char) :
    splitWs (c :: rest) =
      if isSpaceChar c then splitWs rest
      else (c :: rest.takeWhile (fun x => ! isSpaceChar x)) ::
        splitWs (rest.dropWhile (fun x => ! isSpaceChar x)) := by
  conv_lhs => rw [splitWs]

lemma collapseWs_nil : collapseWs [] = [] := by
  conv_lhs => rw [collapseWs]

lemma splitWs_nil : splitWs [] = [] := by
  conv_lhs => rw [splitWs]

lemma getLast?_cons_ne_nil {α : Type} (a : α) {l : List α} (h : l ≠ []) :
    (a :: l).getLast? = l.getLast? := by
  obtain ⟨z, zs, rfl⟩ := List.exists_cons_of_ne_nil h
  rw [List.getLast?_cons_cons]

lemma collapse_eq_join_aux :
    ∀ (n : Nat) (t : List Char), t.length ≤ n →
      (∀ c, t.head? = some c → isSpaceChar c = false) →
      (∀ c, t.getLast? = some c → isSpaceChar c = false) →
      collapseWs t = joinWords (splitWs t) := by
  intro n
  induction n with
  | zero =>
    intro t hlen _ _
    have ht : t = [] := List.length_eq_zero.mp (Nat.le_zero.mp hlen)
    subst ht
    rw [collapseWs_nil, splitWs_nil]
    rfl
  | succ n ih =>
    intro t hlen hlead htrail
    cases t with
    | nil =>
      rw [collapseWs_nil, splitWs_nil]
      rfl
    | cons c rest =>
      have hc : isSpaceChar c = false := hlead c rfl
      rw [collapseWs_cons, if_neg (by simp [hc]), splitWs_cons, if_neg (by simp [hc])]
      cases rest with
      | nil => simp [collapseWs_nil, splitWs_nil, joinWords]
      | cons x xs =>
        by_cases hx : isSpaceChar x
        · rw [List.takeWhile_cons_of_neg (by simp [hx]),
            List.dropWhile_cons_of_neg (by simp [hx]),
            collapseWs_cons, if_pos hx, splitWs_cons, if_pos hx,
            ← splitWs_dropWhile xs]
          set u := xs.dropWhile isSpaceChar with hu
          have hune : u ≠ [] := by
            intro he
            have hall : ∀ y ∈ xs, isSpaceChar y :=
              List.dropWhile_eq_nil_iff.mp (hu ▸ he)
            cases xs with
            | nil =>
              have := htrail x (by rfl)
              rw [this] at hx
              exact Bool.false_ne_true hx
            | cons y ys =>
              have hne : (y :: ys) ≠ [] := by simp
              have hmem := List.getLast_mem hne
              have hsp : isSpaceChar ((y :: ys).getLast hne) = true := hall _ hmem
              have hgl : (c :: x :: y :: ys).getLast? = some ((y :: ys).getLast hne) := by
                rw [List.getLast?_cons_cons, List.getLast?_cons_cons,
                  List.getLast?_eq_getLast _ hne]
              have := htrail _ hgl
              rw [this] at hsp
              exact Bool.false_ne_true hsp
          obtain ⟨d, u', hdu⟩ := List.exists_cons_of_ne_nil hune
          have hd : isSpaceChar d = false :=
            head_dropWhile_false (p := isSpaceChar) (l := xs)
              (by rw [← hu, hdu]; rfl)
          have hxsne : xs ≠ [] := by
            intro he
            rw [he] at hu
            exact hune (by rw [hu]; rfl)
          have hulen : u.length ≤ xs.length :=
            (List.dropWhile_sublist (l := xs) isSpaceChar).length_le
          have hucollapse : collapseWs u = joinWords (splitWs u) := by
            apply ih u
            · simp only [List.length_cons] at hlen
              omega
            · intro e he
              rw [hdu] at he
              simp at he
              rw [← he]
              exact hd
            · intro e he
              apply htrail e
              rw [List.getLast?_cons_cons, getLast?_cons_ne_nil x hxsne,
                ← getLast_dropWhile_of_ne_nil (p := isSpaceChar) (l := xs)
                  (by rw [← hu]; exact hune)]
              rw [← hu]
              exact he
          rw [hucollapse, hdu, splitWs_cons, if_neg (by simp [hd])]
          rfl
        · rw [List.takeWhile_cons_of_pos (by simp [hx]),
            List.dropWhile_cons_of_pos (by simp [hx])]
          have hrest : collapseWs (x :: xs) = joinWords (splitWs (x :: xs)) := by
            apply ih (x :: xs)
            · simp only [List.length_cons] at hlen ⊢
              omega
            · intro e he
              simp at he
              rw [← he]
              simpa using hx
            · intro e he
              exact htrail e (by rw [List.getLast?_cons_cons]; exact he)
          have hsplitrest : splitWs (x :: xs) =
              (x :: xs.takeWhile (fun y => ! isSpaceChar y)) ::
                splitWs (xs.dropWhile (fun y => ! isSpaceChar y)) := by
            rw [splitWs_cons, if_neg (by simp [hx])]
          rw [show (c :: x :: xs.takeWhile (fun y => ! isSpaceChar y)) ::
              splitWs (xs.dropWhile (fun y => ! isSpaceChar y)) =
              (c :: (x :: xs.takeWhile (fun y => ! isSpaceChar y))) ::
              splitWs (xs.dropWhile (fun y => ! isSpaceChar y)) from rfl,
            joinWords_cons_extend, ← hsplitrest, ← hrest]

end TheOdds

namespace TheOdds

lemma toNat_ofNat_of_lt {m : Nat} (h : m < 55296) : (Char.ofNat m).toNat = m := by
  rw [Char.ofNat, dif_pos (Or.inl h)]
  simp [Char.ofNatAux, Char.toNat, UInt32.ofNat', UInt32.toNat, BitVec.toNat_ofNatLt]

lemma spaceCode_false {m : Nat} (h : 33 ≤ m) :
    (decide (m = 32) || decide (m = 9) || decide (m = 10) || decide (m = 13) ||
      decide (m = 11) || decide (m = 12)) = false := by
  simp only [Bool.or_eq_false_iff, decide_eq_false_iff_not]
  omega

lemma isSpaceChar_toLower (c : Char) : isSpaceChar c.toLower = isSpaceChar c := by
  unfold Char.toLower isSpaceChar
  dsimp only
  by_cases h : c.toNat ≥ 65 ∧ c.toNat ≤ 90
  · rw [if_pos h, toNat_ofNat_of_lt (by omega)]
    rw [spaceCode_false (by omega), spaceCode_false (by omega)]
  · rw [if_neg h]

lemma head?_stripWs (s : List Char) {c : Char}
    (h : (stripWs s).head? = some c) : isSpaceChar c = false := by
  unfold stripWs at h
  rw [List.head?_reverse] at h
  have hne : (s.dropWhile isSpaceChar).reverse.dropWhile isSpaceChar ≠ [] := by
    intro he
    rw [he] at h
    simp at h
  rw [getLast_dropWhile_of_ne_nil hne, List.getLast?_reverse] at h
  exact head_dropWhile_false h

lemma getLast?_stripWs (s : List Char) {c : Char}
    (h : (stripWs s).getLast? = some c) : isSpaceChar c = false := by
  unfold stripWs at h
  rw [List.getLast?_reverse] at h
  exact head_dropWhile_false h

lemma normalize_eq_joinWords (s : List Char) :
    normalizeName s = joinWords (wordsOf s) := by
  unfold normalizeName wordsOf
  apply collapse_eq_join_aux ((stripWs s).map Char.toLower).length _ le_rfl
  · intro c h
    rw [List.head?_map] at h
    obtain ⟨d, hd, hdc⟩ := Option.map_eq_some'.mp h
    rw [← hdc, isSpaceChar_toLower]
    exact head?_stripWs s hd
  · intro c h
    rw [List.getLast?_map] at h
    obtain ⟨d, hd, hdc⟩ := Option.map_eq_some'.mp h
    rw [← hdc, isSpaceChar_toLower]
    exact getLast?_stripWs s hd

end TheOdds

namespace TheOdds

/-- Python `str.encode()`: UTF-8 bytes of a string. -/
def utf8EncodeChar (c : Char) : List Nat :=
  let n := c.toNat
  if n < 128 then [n]
  else if n < 2048 then [192 + n / 64, 128 + n % 64]
  else if n < 65536 then
    [224 + n / 4096, 128 + (n / 64) % 64, 128 + n % 64]
  else
    [240 + n / 262144, 128 + (n / 4096) % 64, 128 + (n / 64) % 64, 128 + n % 64]

/-- UTF-8 byte sequence of a character list. -/
def encodeUtf8 (s : List Char) : List Nat := s.flatMap utf8EncodeChar

/-- Word size of the SHA-1 state: 2^32. -/
def M32 : Nat := 4294967296

/-- Left rotation of a 32-bit word. -/
def rotl32 (x : Nat) (s : Nat) : Nat := ((x <<< s) % M32) ||| (x >>> (32 - s))

/-- SHA-1 message padding: a 0x80 byte, zero bytes to 56 mod 64, then the
original bit length as eight big-endian bytes. -/
def padMessage (msg : List Nat) : List Nat :=
  let len := msg.length
  let bitLen := 8 * len
  let padZeros := (119 - len % 64) % 64
  msg ++ [128] ++ List.replicate padZeros 0 ++
    [(bitLen >>> 56) % 256, (bitLen >>> 48) % 256, (bitLen >>> 40) % 256,
     (bitLen >>> 32) % 256, (bitLen >>> 24) % 256, (bitLen >>> 16) % 256,
     (bitLen >>> 8) % 256, bitLen % 256]

/-- Split the padded message into 64-byte chunks. -/
def toChunks (l : List Nat) : List (List Nat) :=
  if _h : l.length = 0 then [] else l.take 64 :: toChunks (l.drop 64)
termination_by l.length
decreasing_by
  rw [List.length_drop]
  omega

/-- Pack bytes into 32-bit big-endian words. -/
def bytesToWords : List Nat → List Nat
  | b0 :: b1 :: b2 :: b3 :: rest =>
    (((b0 * 256 + b1) * 256 + b2) * 256 + b3) :: bytesToWords rest
  | _ => []

/-- Extend the sixteen chunk words to eighty schedule words:
w[i] = rotl1(w[i-3] xor w[i-8] xor w[i-14] xor w[i-16]). -/
def extendWords (ws : List Nat) : Nat → List Nat
  | 0 => ws
  | fuel + 1 =>
    let m := ws.length
    let w := rotl32 ((ws.getD (m - 3) 0) ^^^ (ws.getD (m - 8) 0) ^^^
      (ws.getD (m - 14) 0) ^^^ (ws.getD (m - 16) 0)) 1
    extendWords (ws ++ [w]) fuel

/-- The SHA-1 round function. -/
def sha1F (i b c d : Nat) : Nat :=
  if i < 20 then (b &&& c) ||| ((b ^^^ (M32 - 1)) &&& d)
  else if i < 40 then b ^^^ c ^^^ d
  else if i < 60 then (b &&& c) ||| (b &&& d) ||| (c &&& d)
  else b ^^^ c ^^^ d

/-- The SHA-1 round constants. -/
def sha1K (i : Nat) : Nat :=
  if i < 20 then 1518500249
  else if i < 40 then 1859775393
  else if i < 60 then 2400959708
  else 3395469782

/-- One SHA-1 compression step. -/
def sha1Step (ws : List Nat) (st : Nat × Nat × Nat × Nat × Nat) (i : Nat) :
    Nat × Nat × Nat × Nat × Nat :=
  let (a, b, c, d, e) := st
  let temp := (rotl32 a 5 + sha1F i b c d + e + sha1K i + ws.getD i 0) % M32
  (temp, a, rotl32 b 30, c, d)

/-- Process one 64-byte chunk. -/
def processChunk (h : Nat × Nat × Nat × Nat × Nat) (chunk : List Nat) :
    Nat × Nat × Nat × Nat × Nat :=
  let ws := extendWords (bytesToWords chunk) 64
  let (h0, h1, h2, h3, h4) := h
  let (a, b, c, d, e) := (List.range 80).foldl (sha1Step ws) (h0, h1, h2, h3, h4)
  ((h0 + a) % M32, (h1 + b) % M32, (h2 + c) % M32, (h3 + d) % M32, (h4 + e) % M32)

/-- The SHA-1 initialization vector. -/
def sha1Init : Nat × Nat × Nat × Nat × Nat :=
  (1732584193, 4023233417, 2562383102, 271733878, 3285377520)

/-- The SHA-1 digest of a byte sequence as five 32-bit words. -/
def sha1Digest (msg : List Nat) : Nat × Nat × Nat × Nat × Nat :=
  (toChunks (padMessage msg)).foldl processChunk sha1Init

/-- One lower-case hexadecimal digit: codes 48-57 for 0-9, 97-102 for
10-15. -/
def hexDigit (n : Nat) : Char :=
  if n < 10 then Char.ofNat (48 + n) else Char.ofNat (87 + n)

/-- Eight hex characters of one 32-bit word, big-endian. -/
def wordToHex (w : Nat) : List Char :=
  [hexDigit ((w >>> 28) % 16), hexDigit ((w >>> 24) % 16),
   hexDigit ((w >>> 20) % 16), hexDigit ((w >>> 16) % 16),
   hexDigit ((w >>> 12) % 16), hexDigit ((w >>> 8) % 16),
   hexDigit ((w >>> 4) % 16), hexDigit (w % 16)]

/-- Model of `hashlib.sha1(...).hexdigest()`: the 40 lower-case hex
characters of the SHA-1 digest. -/
def sha1Hex (msg : List Nat) : List Char :=
  wordToHex (sha1Digest msg).1 ++ wordToHex (sha1Digest msg).2.1 ++
  wordToHex (sha1Digest msg).2.2.1 ++ wordToHex (sha1Digest msg).2.2.2.1 ++
  wordToHex (sha1Digest msg).2.2.2.2

/-- Model of `_player_id` (theodds_nba_provider.py lines 37-39): the first 12
hex characters of the SHA-1 digest of the normalized name. -/
def playerId (name : List Char) : List Char :=
  (sha1Hex (encodeUtf8 (normalizeName name))).take 12

end TheOdds

set_option maxRecDepth 10000 in
unseal TheOdds.toChunks in
/-- SHA-1 sanity check against the standard test vector for the empty
message. -/
theorem sha1Hex_empty_vector :
    TheOdds.sha1Hex [] = "da39a3ee5e6b4b0d3255bfef95601890afd80709".toList := by
  decide

set_option maxRecDepth 10000 in
unseal TheOdds.toChunks in
/-- SHA-1 sanity check against the standard test vector for "abc". -/
theorem sha1Hex_abc_vector :
    TheOdds.sha1Hex (TheOdds.encodeUtf8 "abc".toList) =
      "a9993e364706816aba3e25717850c26c9cd0d89d".toList := by
  decide

set_option maxRecDepth 10000 in
unseal TheOdds.toChunks TheOdds.collapseWs TheOdds.splitWs in
/-- Claim C6: the player identifier is the first 12 hex characters of the
SHA-1 digest of the normalized (stripped, lower-cased, whitespace-collapsed)
name; names that differ only in letter case and whitespace runs — equal word
sequences after lower-casing — receive identical identifiers, as the
concrete pair and the concrete 12-character digest confirm. -/
theorem C6_player_id_case_whitespace_invariance :
    (∀ a b : List Char, TheOdds.wordsOf a = TheOdds.wordsOf b →
      TheOdds.playerId a = TheOdds.playerId b) ∧
    (∀ s : List Char, TheOdds.playerId s =
      (TheOdds.sha1Hex (TheOdds.encodeUtf8 (TheOdds.normalizeName s))).take 12) ∧
    (∀ s : List Char, (TheOdds.playerId s).length = 12) ∧
    TheOdds.playerId "LeBron   James".toList = TheOdds.playerId "lebron james".toList ∧
    TheOdds.playerId "lebron james".toList = "01b6e56db138".toList := by
  have hlen : ∀ msg : List Nat, (TheOdds.sha1Hex msg).length = 40 := by
    intro msg
    simp [TheOdds.sha1Hex, TheOdds.wordToHex]
  have hinv : ∀ a b : List Char, TheOdds.wordsOf a = TheOdds.wordsOf b →
      TheOdds.playerId a = TheOdds.playerId b := by
    intro a b h
    unfold TheOdds.playerId
    rw [TheOdds.normalize_eq_joinWords, TheOdds.normalize_eq_joinWords, h]
  refine ⟨hinv, fun s => rfl, ?_, ?_, ?_⟩
  · intro s
    unfold TheOdds.playerId
    rw [List.length_take, hlen]
    rfl
  · exact hinv _ _ (by decide)
  · decide

set_option maxRecDepth 10000 in
unseal TheOdds.toChunks TheOdds.collapseWs TheOdds.splitWs in
/-- Witness for C6: the invariance applied at the concrete mixed-case,
irregular-whitespace pair of names. -/
theorem C6_player_id_case_whitespace_invariance_witness :
    TheOdds.playerId "LeBron   James".toList = TheOdds.playerId "lebron james".toList ∧
    TheOdds.playerId " LeBron James ".toList = TheOdds.playerId "lebron james".toList := by
  exact ⟨C6_player_id_case_whitespace_invariance.1 _ _ (by decide),
    C6_player_id_case_whitespace_invariance.1 _ _ (by decide)⟩
